import Mathlib

/-!
Shallow embedding of LKHZ (src/lkhz.py), a class that estimates the running
Linux kernel's CONFIG_HZ value and converts raw jiffies values to timestamps.

Python floats are modelled as rationals (ℚ), Python unbounded integers as ℤ.
Python exceptions are modelled with an explicit result type (`PyResult`):
a Python function that can raise returns `PyResult α`, where `PyResult.ret`
is a normal return and `PyResult.exc` a raised exception.
-/

/-- Python exception kinds that the modelled code paths can raise. -/
inductive PyError where
  | indexError : PyError
  | valueError : PyError
  | zeroDivisionError : PyError
deriving DecidableEq, Repr

/-- Result of a Python call: a normal return value or a raised exception. -/
inductive PyResult (α : Type) where
  | ret : α → PyResult α
  | exc : PyError → PyResult α
deriving DecidableEq, Repr

/-- Round a rational to the nearest integer, ties to even: the semantics of
Python's builtin `round` (idealised over exact rationals). -/
def roundEven (x : ℚ) : ℤ :=
  if x - ⌊x⌋ < 1/2 then ⌊x⌋
  else if 1/2 < x - ⌊x⌋ then ⌊x⌋ + 1
  else if ⌊x⌋ % 2 = 0 then ⌊x⌋ else ⌊x⌋ + 1

/-- Python's `round(x, 8)`: round to 8 decimal digits. -/
def round8 (x : ℚ) : ℚ :=
  (roundEven (x * 100000000) : ℚ) / 100000000

/-- A rational that is an exact multiple of 10^-8 (the grid `round8` lands on). -/
def OnGrid (x : ℚ) : Prop := ∃ k : ℤ, x = (k : ℚ) / 100000000

theorem roundEven_floor_le (x : ℚ) : ⌊x⌋ ≤ roundEven x := by
  unfold roundEven
  split_ifs <;> omega

theorem roundEven_le_floor_add_one (x : ℚ) : roundEven x ≤ ⌊x⌋ + 1 := by
  unfold roundEven
  split_ifs <;> omega

theorem roundEven_intCast (n : ℤ) : roundEven (n : ℚ) = n := by
  unfold roundEven
  rw [Int.floor_intCast]
  simp

theorem roundEven_mono {x y : ℚ} (h : x ≤ y) : roundEven x ≤ roundEven y := by
  rcases lt_or_eq_of_le (Int.floor_le_floor h) with hf | hf
  · calc roundEven x ≤ ⌊x⌋ + 1 := roundEven_le_floor_add_one x
      _ ≤ ⌊y⌋ := by omega
      _ ≤ roundEven y := roundEven_floor_le y
  · unfold roundEven
    rw [← hf]
    split_ifs <;> first | omega | linarith

theorem roundEven_nonneg {x : ℚ} (h : 0 ≤ x) : 0 ≤ roundEven x := by
  have h0 : (0 : ℤ) ≤ ⌊x⌋ := Int.floor_nonneg.mpr h
  have := roundEven_floor_le x
  omega

theorem round8_mono {x y : ℚ} (h : x ≤ y) : round8 x ≤ round8 y := by
  unfold round8
  have hm : roundEven (x * 100000000) ≤ roundEven (y * 100000000) :=
    roundEven_mono (by linarith)
  have hc : ((roundEven (x * 100000000) : ℚ)) ≤ (roundEven (y * 100000000) : ℚ) := by
    exact_mod_cast hm
  exact div_le_div_of_nonneg_right hc (by norm_num)

theorem round8_onGrid (x : ℚ) : OnGrid (round8 x) :=
  ⟨roundEven (x * 100000000), rfl⟩

theorem round8_eq_self {x : ℚ} (h : OnGrid x) : round8 x = x := by
  obtain ⟨k, rfl⟩ := h
  unfold round8
  have h1 : (k : ℚ) / 100000000 * 100000000 = (k : ℚ) := by
    field_simp
  rw [h1, roundEven_intCast]

theorem round8_nonneg {x : ℚ} (h : 0 ≤ x) : 0 ≤ round8 x := by
  unfold round8
  have h0 : (0 : ℤ) ≤ roundEven (x * 100000000) := roundEven_nonneg (by positivity)
  have : (0 : ℚ) ≤ (roundEven (x * 100000000) : ℚ) := by exact_mod_cast h0
  positivity

theorem round8_intCast (n : ℤ) : round8 (n : ℚ) = n :=
  round8_eq_self ⟨n * 100000000, by push_cast; ring⟩

/-- Python's `int(x)` applied to a float: truncation toward zero. -/
def pyInt (x : ℚ) : ℤ := if 0 ≤ x then ⌊x⌋ else ⌈x⌉

/-- Tick-bias correction in `LKHZ._gv` (src/lkhz.py lines 126-128):
`adj_jiffies = self.jiffies + 300*self.config_hz`, then
`if self.since_boot > 300: adj_jiffies -= (1 << 32)`. -/
def adj_jiffies_gv (config_hz jiffies : ℤ) (since_boot : ℚ) : ℤ :=
  if since_boot > 300 then jiffies + 300 * config_hz - 2 ^ 32
  else jiffies + 300 * config_hz

/-- The `user_hz` property (src/lkhz.py line 48): `int(self.HZ+2 // 50*50)`.
Python operator precedence computes `2 // 50 * 50` first (floor-division
`Int.fdiv`), which is `0`, so the result is the truncation of `HZ` itself. -/
def user_hz (hz : ℚ) : ℤ := pyInt (hz + ((Int.fdiv 2 50 * 50 : ℤ) : ℚ))

/-- Follows the spec's words, for comparison with `user_hz`:
`userHz = floor((HZ_estimate + 2) / 50) * 50`. -/
def userHzSpec (hz : ℚ) : ℤ := ⌊(hz + 2) / 50⌋ * 50

/-- C1: For every raw tick value t and corrected-elapsed e > 0, the tick-bias
correction in `LKHZ._gv` yields `t + 300*config_hz` when `e ≤ 300` and
`t + 300*config_hz - 2^32` when `e > 300` (the subtraction applied once). -/
theorem C1_tick_bias_correction (t chz : ℤ) (e : ℚ) (_he : 0 < e) :
    (e ≤ 300 → adj_jiffies_gv chz t e = t + 300 * chz) ∧
    (300 < e → adj_jiffies_gv chz t e = t + 300 * chz - 2 ^ 32) := by
  unfold adj_jiffies_gv
  constructor
  · intro h
    rw [if_neg (by linarith)]
  · intro h
    rw [if_pos h]

theorem C1_tick_bias_correction_witness :
    adj_jiffies_gv 250 7 100 = 7 + 300 * 250 ∧
    adj_jiffies_gv 250 7 400 = 7 + 300 * 250 - 2 ^ 32 := by
  exact ⟨(C1_tick_bias_correction 7 250 100 (by norm_num)).1 (by norm_num),
         (C1_tick_bias_correction 7 250 400 (by norm_num)).2 (by norm_num)⟩

/-- C2: The claim states `user_hz = floor((h + 2)/50)*50`, always a multiple
of 50.  The code `int(self.HZ+2 // 50*50)` computes `int(HZ + (2//50)*50)
= int(HZ)` because `//` binds tighter than `+` — an operator-precedence slip
contradicting the code's own comment about adding 2.  At HZ estimate 251 the
code yields 251, not the multiple of 50 (250) required by the claim. -/
theorem C2_user_hz_precedence_bug :
    user_hz 251 = 251 ∧ userHzSpec 251 = 250 ∧
    user_hz 251 ≠ userHzSpec 251 ∧ ¬ (50 ∣ user_hz 251) := by
  have hf : Int.fdiv 2 50 = 0 := rfl
  have h1 : user_hz 251 = 251 := by
    unfold user_hz
    rw [hf]
    norm_num [pyInt]
  have h2 : userHzSpec 251 = 250 := by
    unfold userHzSpec
    norm_num
  refine ⟨h1, h2, ?_, ?_⟩
  · rw [h1, h2]
    omega
  · rw [h1]
    omega

/-- Mutable offset state of `LKHZ` used by `_gv` (fields `self.offset` and
`self.last_since_boot` in src/lkhz.py). -/
structure OffsetState where
  offset : ℚ
  last_since_boot : ℚ
deriving DecidableEq, Repr

/-- The suspend/resume discontinuity handling at the top of `LKHZ._gv`
(src/lkhz.py lines 100-108).  `raw` is the first field of `/proc/uptime`
(raw elapsed seconds); `fresh` is the value `self.cpu0_offset` would return
if re-read (an external read, passed as a parameter).  Returns the new state
and the corrected `self.since_boot` value. -/
def offsetUpdate (s : OffsetState) (raw fresh : ℚ) : OffsetState × ℚ :=
  let sb := raw - s.offset
  if 1 < |sb - s.last_since_boot| then
    let sb2 := sb + s.offset - fresh
    (⟨fresh, sb2⟩, sb2)
  else
    (⟨s.offset, sb⟩, sb)

/-- C4: A recalibration triggers exactly when
`|raw - currentOffset - lastCorrected| > 1`; on trigger the offset is
un-applied, the fresh offset installed and re-applied, yielding
`raw - fresh`; otherwise the offset is unchanged and the result is
`raw - currentOffset`. -/
theorem C4_offset_update (s : OffsetState) (raw fresh : ℚ) :
    (1 < |raw - s.offset - s.last_since_boot| →
      offsetUpdate s raw fresh = (⟨fresh, raw - fresh⟩, raw - fresh)) ∧
    (|raw - s.offset - s.last_since_boot| ≤ 1 →
      offsetUpdate s raw fresh = (⟨s.offset, raw - s.offset⟩, raw - s.offset)) := by
  unfold offsetUpdate
  constructor
  · intro h
    rw [if_pos h]
    have : raw - s.offset + s.offset - fresh = raw - fresh := by ring
    rw [this]
  · intro h
    rw [if_neg (not_lt.mpr h)]

theorem C4_offset_update_witness :
    offsetUpdate ⟨0, 0⟩ 5 2 = (⟨2, 3⟩, 3) ∧
    offsetUpdate ⟨1, 4⟩ 5 9 = (⟨1, 4⟩, 4) := by
  constructor
  · have h := (C4_offset_update ⟨0, 0⟩ 5 2).1 (by norm_num)
    rw [h]
    norm_num
  · have h := (C4_offset_update ⟨1, 4⟩ 5 9).2 (by norm_num)
    rw [h]
    norm_num

/-- The instantaneous estimate `self.HZ = round(adj_jiffies / self.since_boot, 8)`
(src/lkhz.py line 130).  Python raises `ZeroDivisionError` when
`self.since_boot == 0` and never yields infinity or NaN. -/
def instHz (adj : ℤ) (since_boot : ℚ) : PyResult ℚ :=
  if since_boot = 0 then PyResult.exc PyError.zeroDivisionError
  else PyResult.ret (round8 ((adj : ℚ) / since_boot))

/-- C8: Computing the instantaneous HZ with zero corrected elapsed raises
`ZeroDivisionError` (never silently infinity/NaN); for positive elapsed it
returns `adjustedTicks / elapsed` rounded to 8 decimal digits, which is
non-negative whenever `adjustedTicks ≥ 0`. -/
theorem C8_instantaneous_hz (adj : ℤ) (e : ℚ) :
    instHz adj 0 = PyResult.exc PyError.zeroDivisionError ∧
    (0 < e → instHz adj e = PyResult.ret (round8 ((adj : ℚ) / e))) ∧
    (0 ≤ adj → 0 < e → ∃ q, instHz adj e = PyResult.ret q ∧ 0 ≤ q) := by
  refine ⟨by unfold instHz; rw [if_pos rfl], ?_, ?_⟩
  · intro he
    unfold instHz
    rw [if_neg (ne_of_gt he)]
  · intro ha he
    refine ⟨round8 ((adj : ℚ) / e), ?_, ?_⟩
    · unfold instHz
      rw [if_neg (ne_of_gt he)]
    · apply round8_nonneg
      apply div_nonneg _ (le_of_lt he)
      exact_mod_cast ha

theorem C8_instantaneous_hz_witness :
    instHz 100 0 = PyResult.exc PyError.zeroDivisionError ∧
    instHz 100 2 = PyResult.ret 50 ∧ (0 : ℚ) ≤ 50 := by
  obtain ⟨h0, h1, -⟩ := C8_instantaneous_hz 100 2
  refine ⟨h0, ?_, by norm_num⟩
  rw [h1 (by norm_num)]
  have : ((100 : ℤ) : ℚ) / 2 = ((50 : ℤ) : ℚ) := by norm_num
  rw [this, round8_intCast]
  norm_num

/-- Tick-bias and wraparound correction in `LKHZ.jiffies_to_datetime`
(src/lkhz.py lines 77-79): `adj_jiffies = jiffies + 300*self.user_hz`, then
`if self.since_boot + self.cpu0_offset > 300: adj_jiffies -= (1 << 32)`. -/
def adj_jiffies_j2d (uhz jiffies : ℤ) (since_boot cpu0_off : ℚ) : ℤ :=
  if since_boot + cpu0_off > 300 then jiffies + 300 * uhz - 2 ^ 32
  else jiffies + 300 * uhz

/-- The timestamp value computed by `LKHZ.jiffies_to_datetime`
(src/lkhz.py lines 75-93), before the final calendar rendering:
`adj_jiffies / self.config_hz + btime` (seconds since the epoch). -/
def jiffies_to_datetime_val (uhz chz : ℤ) (since_boot cpu0_off : ℚ)
    (btime jiffies : ℤ) : ℚ :=
  ((adj_jiffies_j2d uhz jiffies since_boot cpu0_off : ℤ) : ℚ) / (chz : ℚ) + (btime : ℚ)

/-- C7: The converter computes `adjustedTicks = rawTicks + 300*userHzEstimate`,
subtracts 2^32 exactly when `correctedElapsed + bootOffset > 300`, divides by
`configuredHz` and adds `btime`; at ConfiguredHz 250, rawTicks 1000000,
correctedElapsed 4100, bootOffset 0, userHzEstimate 250 the intermediate
adjusted ticks equal -4293892296. -/
theorem C7_jiffies_to_datetime (uhz chz t : ℤ) (sb off : ℚ) (bt : ℤ) :
    (300 < sb + off → adj_jiffies_j2d uhz t sb off = t + 300 * uhz - 2 ^ 32) ∧
    (sb + off ≤ 300 → adj_jiffies_j2d uhz t sb off = t + 300 * uhz) ∧
    jiffies_to_datetime_val uhz chz sb off bt t =
      ((adj_jiffies_j2d uhz t sb off : ℤ) : ℚ) / (chz : ℚ) + (bt : ℚ) ∧
    adj_jiffies_j2d 250 1000000 4100 0 = -4293892296 := by
  refine ⟨?_, ?_, rfl, ?_⟩
  · intro h
    unfold adj_jiffies_j2d
    rw [if_pos h]
  · intro h
    unfold adj_jiffies_j2d
    rw [if_neg (by linarith)]
  · unfold adj_jiffies_j2d
    rw [if_pos (by norm_num)]
    norm_num

theorem C7_jiffies_to_datetime_witness :
    adj_jiffies_j2d 250 1000000 4100 0 = -4293892296 ∧
    adj_jiffies_j2d 250 1000000 100 0 = 1000000 + 300 * 250 := by
  refine ⟨(C7_jiffies_to_datetime 250 250 1000000 4100 0 1700000000).2.2.2, ?_⟩
  exact (C7_jiffies_to_datetime 250 250 1000000 100 0 1700000000).2.1 (by norm_num)

/-- Python's `min` over a list (the modelled calls are always on non-empty
lists; the `[]` case is arbitrary since Python would raise there). -/
def pyMin : List ℚ → ℚ
  | [] => 0
  | x :: xs => xs.foldl min x

/-- Python's `max` over a list (same convention as `pyMin`). -/
def pyMax : List ℚ → ℚ
  | [] => 0
  | x :: xs => xs.foldl max x

theorem foldl_min_le_init (xs : List ℚ) (x : ℚ) : xs.foldl min x ≤ x := by
  induction xs generalizing x with
  | nil => simp [List.foldl]
  | cons y ys ih =>
      simp only [List.foldl]
      exact le_trans (ih (min x y)) (min_le_left x y)

theorem foldl_min_le_mem {a : ℚ} {xs : List ℚ} (x : ℚ) (h : a ∈ xs) :
    xs.foldl min x ≤ a := by
  induction xs generalizing x with
  | nil => cases h
  | cons y ys ih =>
      simp only [List.foldl]
      rcases List.mem_cons.mp h with rfl | h2
      · exact le_trans (foldl_min_le_init ys (min x a)) (min_le_right x a)
      · exact ih (min x y) h2

theorem pyMin_le_of_mem {a : ℚ} {l : List ℚ} (h : a ∈ l) : pyMin l ≤ a := by
  cases l with
  | nil => cases h
  | cons x xs =>
      unfold pyMin
      rcases List.mem_cons.mp h with rfl | h2
      · exact foldl_min_le_init xs a
      · exact foldl_min_le_mem x h2

theorem init_le_foldl_max (xs : List ℚ) (x : ℚ) : x ≤ xs.foldl max x := by
  induction xs generalizing x with
  | nil => simp [List.foldl]
  | cons y ys ih =>
      simp only [List.foldl]
      exact le_trans (le_max_left x y) (ih (max x y))

theorem mem_le_foldl_max {a : ℚ} {xs : List ℚ} (x : ℚ) (h : a ∈ xs) :
    a ≤ xs.foldl max x := by
  induction xs generalizing x with
  | nil => cases h
  | cons y ys ih =>
      simp only [List.foldl]
      rcases List.mem_cons.mp h with rfl | h2
      · exact le_trans (le_max_right x a) (init_le_foldl_max ys (max x a))
      · exact ih (max x y) h2

theorem le_pyMax_of_mem {a : ℚ} {l : List ℚ} (h : a ∈ l) : a ≤ pyMax l := by
  cases l with
  | nil => cases h
  | cons x xs =>
      unfold pyMax
      rcases List.mem_cons.mp h with rfl | h2
      · exact init_le_foldl_max xs a
      · exact mem_le_foldl_max x h2

theorem foldl_max_mem (xs : List ℚ) (x : ℚ) : xs.foldl max x ∈ x :: xs := by
  induction xs generalizing x with
  | nil => simp [List.foldl]
  | cons y ys ih =>
      simp only [List.foldl]
      have h := ih (max x y)
      rcases List.mem_cons.mp h with h1 | h1
      · rcases max_choice x y with hc | hc <;> rw [h1, hc]
        · exact List.mem_cons_self _ _
        · exact List.mem_cons_of_mem _ (List.mem_cons_self _ _)
      · exact List.mem_cons_of_mem _ (List.mem_cons_of_mem _ h1)

theorem pyMax_mem {l : List ℚ} (h : l ≠ []) : pyMax l ∈ l := by
  cases l with
  | nil => exact absurd rfl h
  | cons x xs => exact foldl_max_mem xs x

/-- Last `n` elements of a list. -/
def takeLast (n : ℕ) (l : List ℚ) : List ℚ := l.drop (l.length - n)

/-- Python's slice `l[-n:]` : for `n ≥ 1` the last `n` elements (all of `l`
when `n ≥ len(l)`); for `n = 0`, `l[0:]` is the whole list. -/
def pySliceLast (n : ℕ) (l : List ℚ) : List ℚ := if n = 0 then l else takeLast n l

/-- Per-cycle outputs of `LKHZ._gv`: `self._avg`, `self._min`, `self._max`,
`self._delta` (src/lkhz.py lines 133-140). -/
structure GvOut where
  avg : ℚ
  mn : ℚ
  mx : ℚ
  delta : ℚ
deriving DecidableEq, Repr

/-- Rolling-window state of `LKHZ`: the list `self._hz` and the previous
extremes `(self._min, self._max)` (absent before the first cycle, when
`hasattr(self, '_min')` is false). -/
structure GvState where
  hz : List ℚ
  minmax : Option (ℚ × ℚ)
deriving DecidableEq, Repr

/-- The list over which `self._avg` is computed in `LKHZ._gv` (lines
131-133): `self._hz.append(self.HZ)` followed by
`self._hz = self._hz[-1 * self._count:]`. -/
def avgWindow (count : ℕ) (s : GvState) (v : ℚ) : List ℚ :=
  pySliceLast count (s.hz ++ [v])

/-- The list over which `self._min`/`self._max` are computed (lines 134-139):
when a previous min/max exists it is re-appended to `self._hz` first. -/
def mmWindow (count : ℕ) (s : GvState) (v : ℚ) : List ℚ :=
  match s.minmax with
  | none => avgWindow count s v
  | some (mn, mx) => avgWindow count s v ++ [mn, mx]

/-- One rolling-update cycle of `LKHZ._gv` (src/lkhz.py lines 131-140), as a
function of the freshly computed instantaneous value `v = self.HZ`. -/
def gvStep (count : ℕ) (s : GvState) (v : ℚ) : GvState × GvOut :=
  let l1 := avgWindow count s v
  let l2 := mmWindow count s v
  let newMin := round8 (pyMin l2)
  let newMax := round8 (pyMax l2)
  (⟨l2, some (newMin, newMax)⟩,
   ⟨round8 (l1.sum / (l1.length : ℚ)), newMin, newMax, newMax - newMin⟩)

/-- Iterate `gvStep` from the initial state (empty `self._hz`, no `_min`). -/
def gvRun (count : ℕ) (vs : List ℚ) : GvState :=
  vs.foldl (fun s v => (gvStep count s v).1) ⟨[], none⟩

/-- Follows the spec's words, for comparison with `gvStep`: the mean of the
at-most-`count` most recent instantaneous-HZ values in arrival order. -/
def specArrivalAvg (count : ℕ) (vs : List ℚ) : ℚ :=
  round8 ((takeLast count vs).sum / ((takeLast count vs).length : ℚ))

theorem gvStep_fst (count : ℕ) (s : GvState) (v : ℚ) :
    (gvStep count s v).1 = ⟨mmWindow count s v,
      some (round8 (pyMin (mmWindow count s v)),
            round8 (pyMax (mmWindow count s v)))⟩ := rfl

theorem gvStep_avg (count : ℕ) (s : GvState) (v : ℚ) :
    ((gvStep count s v).2).avg =
      round8 ((avgWindow count s v).sum / ((avgWindow count s v).length : ℚ)) := rfl

theorem gvStep_mn (count : ℕ) (s : GvState) (v : ℚ) :
    ((gvStep count s v).2).mn = round8 (pyMin (mmWindow count s v)) := rfl

theorem gvStep_mx (count : ℕ) (s : GvState) (v : ℚ) :
    ((gvStep count s v).2).mx = round8 (pyMax (mmWindow count s v)) := rfl

theorem gvStep_delta (count : ℕ) (s : GvState) (v : ℚ) :
    ((gvStep count s v).2).delta =
      round8 (pyMax (mmWindow count s v)) - round8 (pyMin (mmWindow count s v)) := rfl

theorem round8_eval {q : ℚ} (n : ℤ) (h : q = (n : ℚ)) : round8 q = q := by
  rw [h]
  exact round8_intCast n

/-- C9: For any state and any new value, the window the average is computed
over has at most `count` entries, while the min/max window may exceed `count`
by at most the 2 re-inserted previous extremes. -/
theorem C9_window_capacity (count : ℕ) (hc : 1 ≤ count) (s : GvState) (v : ℚ) :
    (avgWindow count s v).length ≤ count ∧
    (mmWindow count s v).length ≤ count + 2 := by
  have h1 : (avgWindow count s v).length ≤ count := by
    unfold avgWindow pySliceLast takeLast
    rw [if_neg (by omega)]
    rw [List.length_drop]
    omega
  refine ⟨h1, ?_⟩
  cases hp : s.minmax with
  | none =>
      simp only [mmWindow, hp]
      exact le_trans h1 (by omega)
  | some p =>
      obtain ⟨mn, mx⟩ := p
      simp only [mmWindow, hp, List.length_append]
      simp only [List.length_cons, List.length_nil]
      omega

theorem C9_window_capacity_witness :
    (avgWindow 100 ⟨[], none⟩ 0).length ≤ 100 ∧
    (mmWindow 100 ⟨[], none⟩ 0).length ≤ 100 + 2 :=
  C9_window_capacity 100 (by norm_num) ⟨[], none⟩ 0

/-- Step lemma: once a previous min/max exists (both on the 10^-8 rounding
grid, as every stored extreme is), a step's new min is at most the previous
min, its new max is at least the previous max, the reported variance `delta`
is non-negative and at least the previous `max - min`, and the new extremes
are again on the grid and stored in the state. -/
theorem gvStep_extremes_monotone (count : ℕ) (s : GvState) (v mn mx : ℚ)
    (hmm : s.minmax = some (mn, mx)) (hg1 : OnGrid mn) (hg2 : OnGrid mx) :
    ((gvStep count s v).2).mn ≤ mn ∧ mx ≤ ((gvStep count s v).2).mx ∧
    ((gvStep count s v).2).mn ≤ ((gvStep count s v).2).mx ∧
    0 ≤ ((gvStep count s v).2).delta ∧
    mx - mn ≤ ((gvStep count s v).2).delta ∧
    OnGrid ((gvStep count s v).2).mn ∧ OnGrid ((gvStep count s v).2).mx ∧
    (gvStep count s v).1.minmax =
      some (((gvStep count s v).2).mn, ((gvStep count s v).2).mx) := by
  have hl2 : mmWindow count s v = avgWindow count s v ++ [mn, mx] := by
    simp only [mmWindow, hmm]
  have hmemn : mn ∈ mmWindow count s v := by
    rw [hl2]
    simp
  have hmemx : mx ∈ mmWindow count s v := by
    rw [hl2]
    simp
  have hpmin : pyMin (mmWindow count s v) ≤ mn := pyMin_le_of_mem hmemn
  have hpmax : mx ≤ pyMax (mmWindow count s v) := le_pyMax_of_mem hmemx
  have hne : mmWindow count s v ≠ [] := List.ne_nil_of_mem hmemn
  have hminmax : pyMin (mmWindow count s v) ≤ pyMax (mmWindow count s v) :=
    pyMin_le_of_mem (pyMax_mem hne)
  have k1 : round8 (pyMin (mmWindow count s v)) ≤ mn :=
    le_trans (round8_mono hpmin) (le_of_eq (round8_eq_self hg1))
  have k2 : mx ≤ round8 (pyMax (mmWindow count s v)) :=
    le_trans (le_of_eq (round8_eq_self hg2).symm) (round8_mono hpmax)
  have k3 : round8 (pyMin (mmWindow count s v)) ≤ round8 (pyMax (mmWindow count s v)) :=
    round8_mono hminmax
  rw [gvStep_mn, gvStep_mx, gvStep_delta]
  refine ⟨k1, k2, k3, by linarith, by linarith, round8_onGrid _, round8_onGrid _, rfl⟩

/-- Every run of `_gv` cycles that has established extremes stored them as
`round8` outputs, which lie on the 10^-8 grid. -/
theorem gvRun_minmax_onGrid (count : ℕ) (vs : List ℚ) (mn mx : ℚ)
    (h : (gvRun count vs).minmax = some (mn, mx)) : OnGrid mn ∧ OnGrid mx := by
  rcases List.eq_nil_or_concat vs with rfl | ⟨ys, v, rfl⟩
  · simp [gvRun] at h
  · rw [List.concat_eq_append] at h
    have hstep : gvRun count (ys ++ [v]) = (gvStep count (gvRun count ys) v).1 := by
      unfold gvRun
      rw [List.foldl_append]
      rfl
    rw [hstep, gvStep_fst] at h
    simp only [Option.some.injEq, Prod.mk.injEq] at h
    obtain ⟨h1, h2⟩ := h
    exact ⟨h1 ▸ round8_onGrid _, h2 ▸ round8_onGrid _⟩

/-- C10: After any run of estimation steps that has established a reported
min and max, the next step's reported min is at most the previous one, its
reported max at least the previous one (the re-insertion of the previous
extremes makes extremes permanent), the reported variance `max - min` is
non-negative and at least the previous variance, and the new extremes are
stored for the following step — so min is non-increasing, max non-decreasing
and the variance non-negative and non-decreasing across steps. -/
theorem C10_sticky_extremes_permanent (count : ℕ) (vs : List ℚ) (v mn mx : ℚ)
    (hmm : (gvRun count vs).minmax = some (mn, mx)) :
    ((gvStep count (gvRun count vs) v).2).mn ≤ mn ∧
    mx ≤ ((gvStep count (gvRun count vs) v).2).mx ∧
    ((gvStep count (gvRun count vs) v).2).mn ≤
      ((gvStep count (gvRun count vs) v).2).mx ∧
    0 ≤ ((gvStep count (gvRun count vs) v).2).delta ∧
    mx - mn ≤ ((gvStep count (gvRun count vs) v).2).delta ∧
    (gvStep count (gvRun count vs) v).1.minmax =
      some (((gvStep count (gvRun count vs) v).2).mn,
            ((gvStep count (gvRun count vs) v).2).mx) := by
  obtain ⟨hg1, hg2⟩ := gvRun_minmax_onGrid count vs mn mx hmm
  obtain ⟨k1, k2, k3, k4, k5, -, -, k8⟩ :=
    gvStep_extremes_monotone count (gvRun count vs) v mn mx hmm hg1 hg2
  exact ⟨k1, k2, k3, k4, k5, k8⟩

theorem C10_sticky_extremes_permanent_witness :
    ((gvStep 100 (gvRun 100 [10]) 20).2).mn ≤ 10 ∧
    (10 : ℚ) ≤ ((gvStep 100 (gvRun 100 [10]) 20).2).mx ∧
    ((gvStep 100 (gvRun 100 [10]) 20).2).mn ≤
      ((gvStep 100 (gvRun 100 [10]) 20).2).mx ∧
    0 ≤ ((gvStep 100 (gvRun 100 [10]) 20).2).delta ∧
    (10 : ℚ) - 10 ≤ ((gvStep 100 (gvRun 100 [10]) 20).2).delta ∧
    (gvStep 100 (gvRun 100 [10]) 20).1.minmax =
      some (((gvStep 100 (gvRun 100 [10]) 20).2).mn,
            ((gvStep 100 (gvRun 100 [10]) 20).2).mx) := by
  have hrun : (gvRun 100 [10]).minmax = some (10, 10) := by
    show ((gvStep 100 ⟨[], none⟩ 10).1).minmax = some (10, 10)
    rw [gvStep_fst]
    have hm : mmWindow 100 ⟨[], none⟩ 10 = [10] := by
      simp only [mmWindow]
      unfold avgWindow pySliceLast takeLast
      norm_num
    rw [hm]
    have e1 : pyMin [(10 : ℚ)] = 10 := rfl
    have e2 : pyMax [(10 : ℚ)] = 10 := rfl
    rw [e1, e2, round8_eval 10 (by norm_num)]
  exact C10_sticky_extremes_permanent 100 [10] 20 10 10 hrun

/-- C3 (as stated) is false: running `_gv` cycles on instantaneous values
10, 20, 30 (capacity 100), the third cycle's average is 16, computed over
`[10, 20, 10, 10, 30]` — the two entries re-inserted by the second cycle's
sticky-extremes step remain in `self._hz` and participate — whereas the mean
of the arrival-order values `[10, 20, 30]` is 20. -/
theorem C3_counterexample :
    ((gvStep 100 (gvRun 100 [10, 20]) 30).2).avg = 16 ∧
    specArrivalAvg 100 [10, 20, 30] = 20 ∧
    ((gvStep 100 (gvRun 100 [10, 20]) 30).2).avg ≠ specArrivalAvg 100 [10, 20, 30] := by
  have hw1 : avgWindow 100 ⟨[], none⟩ 10 = [10] := by
    unfold avgWindow pySliceLast takeLast
    norm_num
  have hm1 : mmWindow 100 ⟨[], none⟩ 10 = [10] := by
    simp only [mmWindow]
    exact hw1
  have h1 : (gvStep 100 ⟨[], none⟩ 10).1 = ⟨[10], some (10, 10)⟩ := by
    rw [gvStep_fst, hm1]
    have : pyMin [(10 : ℚ)] = 10 := rfl
    rw [this]
    have : pyMax [(10 : ℚ)] = 10 := rfl
    rw [this]
    rw [round8_eval 10 (by norm_num)]
  have hw2 : avgWindow 100 ⟨[10], some (10, 10)⟩ 20 = [10, 20] := by
    unfold avgWindow pySliceLast takeLast
    norm_num
  have hm2 : mmWindow 100 ⟨[10], some (10, 10)⟩ 20 = [10, 20, 10, 10] := by
    simp only [mmWindow, hw2]
    rfl
  have h2 : (gvStep 100 ⟨[10], some (10, 10)⟩ 20).1 =
      ⟨[10, 20, 10, 10], some (10, 20)⟩ := by
    rw [gvStep_fst, hm2]
    have e1 : pyMin [(10 : ℚ), 20, 10, 10] = 10 := by
      simp [pyMin, List.foldl, min_def]
      norm_num
    have e2 : pyMax [(10 : ℚ), 20, 10, 10] = 20 := by
      simp [pyMax, List.foldl, max_def]
      norm_num
    rw [e1, e2, round8_eval 10 (by norm_num), round8_eval 20 (by norm_num)]
  have hrun : gvRun 100 [10, 20] = ⟨[10, 20, 10, 10], some (10, 20)⟩ := by
    unfold gvRun
    simp only [List.foldl]
    rw [h1, h2]
  have hw3 : avgWindow 100 ⟨[10, 20, 10, 10], some (10, 20)⟩ 30 =
      [10, 20, 10, 10, 30] := by
    unfold avgWindow pySliceLast takeLast
    norm_num
  have havg : ((gvStep 100 (gvRun 100 [10, 20]) 30).2).avg = 16 := by
    rw [hrun, gvStep_avg, hw3]
    have hs : ([(10 : ℚ), 20, 10, 10, 30].sum) /
        (([(10 : ℚ), 20, 10, 10, 30].length : ℚ)) = ((16 : ℤ) : ℚ) := by
      simp [List.sum_cons]
      norm_num
    rw [hs, round8_intCast]
    norm_num
  have hspec : specArrivalAvg 100 [10, 20, 30] = 20 := by
    have ht : takeLast 100 [(10 : ℚ), 20, 30] = [10, 20, 30] := by
      unfold takeLast
      norm_num
    unfold specArrivalAvg
    rw [ht]
    have hs : ([(10 : ℚ), 20, 30].sum) / (([(10 : ℚ), 20, 30].length : ℚ)) =
        ((20 : ℤ) : ℚ) := by
      simp [List.sum_cons]
      norm_num
    rw [hs, round8_intCast]
    norm_num
  refine ⟨havg, hspec, ?_⟩
  rw [havg, hspec]
  norm_num

/-- C3 (amended): the two windows are not distinct views — after a step the
stored window `self._hz` literally retains the re-inserted previous extremes,
and each step's average is the mean of the last at-most-`count` entries of
that stored window, so re-inserted extremes from earlier steps do participate
in later averages. -/
theorem C3_single_window_with_extremes (count : ℕ) (s : GvState) (v mn mx : ℚ)
    (hmm : s.minmax = some (mn, mx)) :
    (gvStep count s v).1.hz = avgWindow count s v ++ [mn, mx] ∧
    ((gvStep count s v).2).avg =
      round8 ((avgWindow count s v).sum / ((avgWindow count s v).length : ℚ)) := by
  constructor
  · rw [gvStep_fst]
    simp only [mmWindow, hmm]
  · exact gvStep_avg count s v

theorem C3_single_window_with_extremes_witness :
    (gvStep 100 ⟨[10], some (10, 11)⟩ 20).1.hz =
      avgWindow 100 ⟨[10], some (10, 11)⟩ 20 ++ [10, 11] ∧
    ((gvStep 100 ⟨[10], some (10, 11)⟩ 20).2).avg =
      round8 ((avgWindow 100 ⟨[10], some (10, 11)⟩ 20).sum /
        ((avgWindow 100 ⟨[10], some (10, 11)⟩ 20).length : ℚ)) :=
  C3_single_window_with_extremes 100 ⟨[10], some (10, 11)⟩ 20 10 11 rfl

/-- A Python string, modelled as its character sequence. -/
abbrev PyStr := List Char

/-- Python `s.startswith(p)`. -/
def pyStartsWith (s p : PyStr) : Bool := p.isPrefixOf s

/-- Python `s.endswith(p)`. -/
def pyEndsWith (s p : PyStr) : Bool := p.reverse.isPrefixOf s.reverse

/-- The whitespace characters Python `str.strip()` removes (the ones that
occur in the modelled inputs). -/
def pyIsSpace (c : Char) : Bool :=
  c = ' ' || c = '\n' || c = '\t' || c = '\r'

/-- Python `s.strip()`. -/
def pyStrip (s : PyStr) : PyStr :=
  ((s.dropWhile pyIsSpace).reverse.dropWhile pyIsSpace).reverse

/-- Python `s.split(sep)` with an explicit one-character separator: splits at
every occurrence, keeping empty fields; never returns an empty list. -/
def pySplit (sep : Char) : PyStr → List PyStr
  | [] => [[]]
  | c :: rest =>
      match pySplit sep rest with
      | [] => [[]]
      | h :: t => if c = sep then [] :: h :: t else (c :: h) :: t

/-- Accumulate decimal digits; `none` when a non-digit is met. -/
def digitsToNat : PyStr → ℕ → Option ℕ
  | [], acc => some acc
  | c :: rest, acc =>
      if c.isDigit then digitsToNat rest (10 * acc + (c.toNat - 48)) else none

/-- Python `int(s)` on a string: optional surrounding whitespace, optional
sign, then at least one digit; raises `ValueError` otherwise. -/
def pyParseInt (s : PyStr) : PyResult ℤ :=
  match pyStrip s with
  | [] => PyResult.exc PyError.valueError
  | c :: rest =>
      if c = '-' then
        match rest with
        | [] => PyResult.exc PyError.valueError
        | _ :: _ =>
            match digitsToNat rest 0 with
            | some n => PyResult.ret (-(n : ℤ))
            | none => PyResult.exc PyError.valueError
      else if c = '+' then
        match rest with
        | [] => PyResult.exc PyError.valueError
        | _ :: _ =>
            match digitsToNat rest 0 with
            | some n => PyResult.ret ((n : ℤ))
            | none => PyResult.exc PyError.valueError
      else
        match digitsToNat (c :: rest) 0 with
        | some n => PyResult.ret ((n : ℤ))
        | none => PyResult.exc PyError.valueError

/-- Python `l[-2]`: the next-to-last element; `IndexError` (here `none`)
when the list has fewer than two elements. -/
def pyIdxNeg2 (l : List PyStr) : Option PyStr :=
  if 2 ≤ l.length then l.get? (l.length - 2) else none

/-- The scanning loop of the `cpu0_offset` property (src/lkhz.py lines
59-71), over the lines of `/proc/timer_list` (each with its newline).  The
Python counter `go` starts at 2 (modelled `false`); a line ending in
`ktime_get_boottime` moves it to 1 (modelled `true`), and the next line's
next-to-last space-delimited field is parsed as the offset.  `offset` is
initialised to 0, so the loop yields 0 when the identifier never occurs (or
occurs only on the last line). -/
def timerListScan : Bool → List PyStr → PyResult ℤ
  | _, [] => PyResult.ret 0
  | false, ln :: rest =>
      if pyEndsWith ln "ktime_get_boottime\n".toList then timerListScan true rest
      else timerListScan false rest
  | true, ln :: _ =>
      match pyIdxNeg2 (pySplit ' ' (pyStrip ln)) with
      | none => PyResult.exc PyError.indexError
      | some s => pyParseInt s

/-- The `cpu0_offset` property (src/lkhz.py lines 50-73): the scanned
nanosecond offset divided by 10^9. -/
def cpu0_offset (lines : List PyStr) : PyResult ℚ :=
  match timerListScan false lines with
  | PyResult.ret n => PyResult.ret ((n : ℚ) / 1000000000)
  | PyResult.exc e => PyResult.exc e

/-- `LKHZ._read_kernel_config_gz` (src/lkhz.py lines 26-35), over the
decompressed lines of `/proc/config.gz` (each with its newline): scans for
the first line starting with `CONFIG_HZ=`, takes field 1 of its split on
`=` and parses it with `int`; the initialised `_hz = None` is returned when
no line matches. -/
def read_kernel_config_gz : List PyStr → PyResult (Option ℤ)
  | [] => PyResult.ret none
  | ln :: rest =>
      if pyStartsWith ln "CONFIG_HZ=".toList then
        match (pySplit '=' ln).get? 1 with
        | none => PyResult.exc PyError.indexError
        | some s =>
            match pyParseInt s with
            | PyResult.ret n => PyResult.ret (some n)
            | PyResult.exc e => PyResult.exc e
      else read_kernel_config_gz rest

/-- C5 (as stated) is false: on a timer listing with no line ending in
`ktime_get_boottime`, `cpu0_offset` does not fail — it returns the fallback
numeric value 0.0 (the initialised `offset = 0`, divided by 10^9). -/
theorem C5_counterexample :
    cpu0_offset ["foo\n".toList] = PyResult.ret 0 := by
  have hs : timerListScan false ["foo\n".toList] = PyResult.ret 0 := by decide
  unfold cpu0_offset
  rw [hs]
  norm_num

/-- C5 (amended): whenever the boot-relative clock identifier is absent from
the listing, `cpu0_offset` returns 0.0 — the initialised offset divided by
10^9 — instead of raising any error. -/
theorem C5_cpu0_offset_fallback (lines : List PyStr)
    (h : ∀ l ∈ lines, pyEndsWith l "ktime_get_boottime\n".toList = false) :
    cpu0_offset lines = PyResult.ret 0 := by
  have hs : timerListScan false lines = PyResult.ret 0 := by
    induction lines with
    | nil => rfl
    | cons ln rest ih =>
        have hln : pyEndsWith ln "ktime_get_boottime\n".toList = false :=
          h ln (List.mem_cons_self ln rest)
        simp only [timerListScan, hln, Bool.false_eq_true, if_false]
        exact ih (fun l hl => h l (List.mem_cons_of_mem ln hl))
  unfold cpu0_offset
  rw [hs]
  norm_num

theorem C5_cpu0_offset_fallback_witness :
    cpu0_offset ["a\n".toList] = PyResult.ret 0 :=
  C5_cpu0_offset_fallback ["a\n".toList] (by decide)

/-- C6 (as stated) is false in its error branch: when no line starts with
`CONFIG_HZ=`, the reader returns Python `None` normally rather than raising
any `ConfigNotFoundError`. -/
theorem C6_counterexample :
    read_kernel_config_gz ["CONFIG_FOO=1\n".toList] = PyResult.ret none := by
  decide

/-- C6 (amended): the reader returns the parsed integer of the first line
starting with `CONFIG_HZ=`, skips non-matching lines, and when no line
matches it returns `None` (no value) normally, raising nothing. -/
theorem C6_config_scan (lines : List PyStr) (ln : PyStr) (rest : List PyStr)
    (s : PyStr) (n : ℤ) :
    ((∀ l ∈ lines, pyStartsWith l "CONFIG_HZ=".toList = false) →
      read_kernel_config_gz lines = PyResult.ret none) ∧
    (pyStartsWith ln "CONFIG_HZ=".toList = true →
      (pySplit '=' ln).get? 1 = some s → pyParseInt s = PyResult.ret n →
      read_kernel_config_gz (ln :: rest) = PyResult.ret (some n)) ∧
    (pyStartsWith ln "CONFIG_HZ=".toList = false →
      read_kernel_config_gz (ln :: rest) = read_kernel_config_gz rest) := by
  refine ⟨?_, ?_, ?_⟩
  · intro h
    induction lines with
    | nil => rfl
    | cons l ls ih =>
        have hl : pyStartsWith l "CONFIG_HZ=".toList = false :=
          h l (List.mem_cons_self l ls)
        simp only [read_kernel_config_gz, hl, Bool.false_eq_true, if_false]
        exact ih (fun x hx => h x (List.mem_cons_of_mem l hx))
  · intro h1 h2 h3
    simp only [read_kernel_config_gz, h1, if_true, h2, h3]
  · intro h1
    simp only [read_kernel_config_gz, h1, Bool.false_eq_true, if_false]

theorem C6_config_scan_witness :
    read_kernel_config_gz ["CONFIG_HZ=300\n".toList] = PyResult.ret (some 300) :=
  (C6_config_scan [] "CONFIG_HZ=300\n".toList [] "300\n".toList 300).2.1
    (by decide) (by decide) (by decide)
